import Mathlib

/-!
Shallow embedding of the quota accounting and persistence engine of the
repository (src/lib/quota-store.js) together with its identity sanitizer and
token service (src/api/_auth.js, given as src/unnamed/part_001) and the usage
endpoint payload builder.  Machine integers are modelled as Nat; JavaScript
numbers that may be fractional or non-finite are modelled by the StoredVal
type over the rationals; the external S3 client is modelled by an environment
of per-key responses; the external crypto and base64url/JSON primitives of the
token service are parameters (a TokenCodec) whose contracts appear as
hypotheses.
-/

deriving instance DecidableEq for Except

namespace Beta

/-! ## Identity sanitizer (src/api/_auth.js, sanitizeSegment / sanitizeUserId) -/

/-- Characters kept by the sanitizer regex character class,
    which keeps A-Z, a-z, 0-9, dot, underscore and hyphen. -/
def isAllowedChar (c : Char) : Bool :=
  decide ((65 ≤ c.toNat ∧ c.toNat ≤ 90) ∨ (97 ≤ c.toNat ∧ c.toNat ≤ 122) ∨
    (48 ≤ c.toNat ∧ c.toNat ≤ 57) ∨ c.toNat = 46 ∨ c.toNat = 95 ∨ c.toNat = 45)

/-- The JavaScript String.prototype.trim whitespace set (WhiteSpace and
    LineTerminator code points). -/
def isJsWhitespace (c : Char) : Bool :=
  decide (c.toNat = 9 ∨ c.toNat = 10 ∨ c.toNat = 11 ∨ c.toNat = 12 ∨ c.toNat = 13 ∨
    c.toNat = 32 ∨ c.toNat = 160 ∨ c.toNat = 0x1680 ∨
    (0x2000 ≤ c.toNat ∧ c.toNat ≤ 0x200A) ∨ c.toNat = 0x2028 ∨ c.toNat = 0x2029 ∨
    c.toNat = 0x202F ∨ c.toNat = 0x205F ∨ c.toNat = 0x3000 ∨ c.toNat = 0xFEFF)

/-- JavaScript trim: drop leading and trailing whitespace. -/
def trimList (l : List Char) : List Char :=
  ((l.dropWhile isJsWhitespace).reverse.dropWhile isJsWhitespace).reverse

/-- The replace step of sanitizeSegment: every character outside the allowed
    class becomes an underscore. -/
def replaceDisallowed (l : List Char) : List Char :=
  l.map (fun c => if isAllowedChar c then c else '_')

/-- sanitizeSegment from src/api/_auth.js: trim, then replace every
    disallowed character by an underscore. -/
def sanitizeSegment (s : String) : String :=
  String.mk (replaceDisallowed (trimList s.data))

/-- sanitizeUserId from src/api/_auth.js (on string inputs the
    argument coercion is the identity). -/
def sanitizeUserId (s : String) : String :=
  sanitizeSegment s

/-! ## Quota store data model (src/lib/quota-store.js) -/

/-- A JavaScript number as it appears in a stored JSON counter field after
    Number coercion: either a finite value (modelled as a rational) or a
    non-finite result (NaN or an infinity). -/
inductive StoredVal where
  | fin (q : ℚ)
  | nonFinite
  deriving DecidableEq

/-- toCount from src/lib/quota-store.js: non-finite or negative values clamp
    to zero, everything else is floored to an integer. -/
def toCount : StoredVal → ℕ
  | .fin q => if q < 0 then 0 else (Int.floor q).toNat
  | .nonFinite => 0

/-- An in-memory UserQuotaRecord as built by createEntry and normalizeEntry:
    the three counters are natural numbers, resetAt and updatedAt are
    nullable strings. -/
structure Entry where
  id : String
  safeId : String
  listeningUsed : ℕ
  translationUsed : ℕ
  pronunciationUsed : ℕ
  resetAt : Option String
  updatedAt : Option String
  deriving DecidableEq

/-- A raw stored JSON object as read back from the durable backend; every
    field may be missing or corrupted.  The counters are arbitrary coerced
    numbers.  The stored safeId field is serialized but never read back. -/
structure StoredEntry where
  id : Option String
  safeId : Option String
  listeningUsed : StoredVal
  translationUsed : StoredVal
  pronunciationUsed : StoredVal
  resetAt : Option String
  updatedAt : Option String
  deriving DecidableEq

/-- A parsed JSON value held by the durable backend: a JSON object, some
    other truthy value (number, non-empty string, ...), or a falsy value
    (null, 0, empty string, false). -/
inductive S3Value where
  | obj (e : StoredEntry)
  | truthyNonObject
  | falsyValue
  deriving DecidableEq

/-- JavaScript x or-else d on a nullable string: null, undefined and the
    empty string fall through to the default. -/
def jsOrString (o : Option String) (d : String) : String :=
  match o with
  | some s => if s = "" then d else s
  | none => d

/-- JavaScript x or-else null on a nullable string: the empty string is
    falsy and becomes null. -/
def jsOrNull (o : Option String) : Option String :=
  match o with
  | some s => if s = "" then none else some s
  | none => none

/-- createEntry from src/lib/quota-store.js: a fresh zeroed record. -/
def createEntry (userId safeId now : String) : Entry :=
  { id := userId, safeId := safeId, listeningUsed := 0, translationUsed := 0,
    pronunciationUsed := 0, resetAt := none, updatedAt := some now }

/-- normalizeEntry from src/lib/quota-store.js: a non-object becomes a fresh
    record; an object has its counters clamped by toCount and its nullable
    fields coerced. -/
def normalizeEntry (v : S3Value) (userId safeId now : String) : Entry :=
  match v with
  | .obj e =>
    { id := jsOrString e.id userId, safeId := safeId,
      listeningUsed := toCount e.listeningUsed,
      translationUsed := toCount e.translationUsed,
      pronunciationUsed := toCount e.pronunciationUsed,
      resetAt := jsOrNull e.resetAt, updatedAt := jsOrNull e.updatedAt }
  | _ => createEntry userId safeId now

/-- The JSON serialization of an in-memory Entry as written by
    writeEntryToS3 (JSON.stringify). -/
def storedOfEntry (e : Entry) : StoredEntry :=
  { id := some e.id, safeId := some e.safeId,
    listeningUsed := .fin e.listeningUsed,
    translationUsed := .fin e.translationUsed,
    pronunciationUsed := .fin e.pronunciationUsed,
    resetAt := e.resetAt, updatedAt := e.updatedAt }

/-! ## Limits configuration -/

/-- A per-category limit value: none models Infinity (unlimited). -/
structure Limits where
  listening : Option ℕ
  translation : Option ℕ
  pronunciation : Option ℕ
  deriving DecidableEq

/-- Process configuration relevant to the store: the key prefix
    USAGE_S3_PREFIX (keyBase), the PER_SECTION_LIMITS produced by
    parseLimitInput, and SECTION_COUNT. -/
structure Config where
  keyBase : String
  perSection : Limits
  sectionCount : ℕ
  deriving DecidableEq

/-- Field access limits[type] for a validated category string. -/
def Limits.get (l : Limits) (t : String) : Option ℕ :=
  if t = "listening" then l.listening
  else if t = "translation" then l.translation
  else l.pronunciation

/-- computeGlobalLimit from src/lib/quota-store.js: a non-finite or
    non-positive per-section limit means unlimited, otherwise the per-section
    limit is multiplied by max 1 SECTION_COUNT. -/
def computeGlobalLimit (perSectionLimit : Option ℕ) (sectionCount : ℕ) : Option ℕ :=
  match perSectionLimit with
  | none => none
  | some p => if p = 0 then none else some (p * max 1 sectionCount)

/-- DEFAULT_LIMITS from src/lib/quota-store.js. -/
def defaultLimits (cfg : Config) : Limits :=
  { listening := computeGlobalLimit cfg.perSection.listening cfg.sectionCount,
    translation := computeGlobalLimit cfg.perSection.translation cfg.sectionCount,
    pronunciation := computeGlobalLimit cfg.perSection.pronunciation cfg.sectionCount }

/-- resolveLimitForType from src/lib/quota-store.js applied to
    DEFAULT_LIMITS: a non-finite or non-positive resolved value means
    unlimited, otherwise the (already integral) value itself. -/
def resolveLimitForType (cfg : Config) (t : String) : Option ℕ :=
  match (defaultLimits cfg).get t with
  | none => none
  | some k => if k = 0 then none else some k

/-! ## Backend state and environment -/

/-- Outcome of one S3 client call, decided by the external environment. -/
inductive S3Resp where
  | ok
  | noSuchKey
  | accessDenied
  | otherError
  deriving DecidableEq

/-- The external S3 service behaviour: a response classification for each
    kind of call at each key. -/
structure S3Env where
  readResp : String → S3Resp
  writeResp : String → S3Resp
  deleteResp : String → S3Resp
  listResp : S3Resp

/-- An environment in which every S3 call succeeds. -/
def S3Env.healthy (env : S3Env) : Prop :=
  (∀ k, env.readResp k = .ok) ∧ (∀ k, env.writeResp k = .ok) ∧
    (∀ k, env.deleteResp k = .ok) ∧ env.listResp = .ok

/-- Association-list lookup modelling JavaScript object property access. -/
def alGet {α : Type} (k : String) : List (String × α) → Option α
  | [] => none
  | (k2, v) :: rest => if k2 = k then some v else alGet k rest

/-- Association-list update modelling JavaScript object property assignment
    (insertion order preserved, existing key overwritten in place). -/
def alSet {α : Type} (k : String) (v : α) : List (String × α) → List (String × α)
  | [] => [(k, v)]
  | (k2, v2) :: rest => if k2 = k then (k, v) :: rest else (k2, v2) :: alSet k v rest

/-- Association-list removal modelling the JavaScript delete operator. -/
def alRemove {α : Type} (k : String) : List (String × α) → List (String × α)
  | [] => []
  | (k2, v2) :: rest => if k2 = k then rest else (k2, v2) :: alRemove k rest

/-- The mutable module state of src/lib/quota-store.js: the useMemoryStore
    flag, the in-memory map, and the durable object store contents. -/
structure StoreState where
  useMemoryStore : Bool
  memoryStore : List (String × Entry)
  s3Objects : List (String × S3Value)
  deriving DecidableEq

/-- buildKey from src/lib/quota-store.js. -/
def buildKey (cfg : Config) (safeId : String) : String :=
  cfg.keyBase ++ "/" ++ safeId ++ ".json"

/-- Errors thrown by the store operations. -/
inductive QErr where
  | userIdRequired
  | unsupportedType (t : String)
  | quotaExceeded (t : String) (limit : ℕ) (used : ℕ)
  | s3Denied
  | s3Other
  deriving DecidableEq

/-! ## Store operations -/

/-- readEntryFromS3: a missing object or a 404 reads as null; AccessDenied
    flips the process to the memory store and reads as null; any other
    failure propagates. -/
def readEntryFromS3 (cfg : Config) (env : S3Env) (s : StoreState) (safeId : String) :
    Except QErr (Option S3Value) × StoreState :=
  let key := buildKey cfg safeId
  match env.readResp key with
  | .ok => (.ok (alGet key s.s3Objects), s)
  | .noSuchKey => (.ok none, s)
  | .accessDenied => (.ok none, { s with useMemoryStore := true })
  | .otherError => (.error .s3Other, s)

/-- writeEntryToS3: stores the JSON serialization of the entry; failures
    propagate to the caller (AccessDenied kept distinguishable because
    saveEntry classifies it). -/
def writeEntryToS3 (cfg : Config) (env : S3Env) (s : StoreState) (safeId : String)
    (entry : Entry) : Except QErr Entry × StoreState :=
  let key := buildKey cfg safeId
  match env.writeResp key with
  | .ok => (.ok entry,
      { s with s3Objects := alSet key (S3Value.obj (storedOfEntry entry)) s.s3Objects })
  | .accessDenied => (.error .s3Denied, s)
  | _ => (.error .s3Other, s)

/-- loadEntry from src/lib/quota-store.js: empty sanitized id is an error;
    the memory store serves or lazily creates the record; otherwise the
    durable backend is read, a truthy object is normalized, and a missing or
    falsy object is seeded by writing a fresh zeroed record back. -/
def loadEntry (cfg : Config) (env : S3Env) (now userId : String) (s : StoreState) :
    Except QErr (Entry × String) × StoreState :=
  let safeId := sanitizeUserId userId
  if safeId = "" then (.error .userIdRequired, s)
  else if s.useMemoryStore then
    match alGet safeId s.memoryStore with
    | some e => (.ok (e, safeId), s)
    | none =>
      let e := createEntry userId safeId now
      (.ok (e, safeId), { s with memoryStore := alSet safeId e s.memoryStore })
  else
    match readEntryFromS3 cfg env s safeId with
    | (.error err, s1) => (.error err, s1)
    | (.ok existing, s1) =>
      match existing with
      | some (.obj e) => (.ok (normalizeEntry (.obj e) userId safeId now, safeId), s1)
      | some .truthyNonObject =>
          (.ok (normalizeEntry .truthyNonObject userId safeId now, safeId), s1)
      | _ =>
        let initial := createEntry userId safeId now
        match writeEntryToS3 cfg env s1 safeId initial with
        | (.ok _, s2) => (.ok (initial, safeId), s2)
        | (.error err, s2) => (.error err, s2)

/-- saveEntry from src/lib/quota-store.js: normalizes, stamps updatedAt, and
    writes to the active backend; an AccessDenied write flips to the memory
    store and saves there instead. -/
def saveEntry (cfg : Config) (env : S3Env) (now userId : String) (entry : Entry)
    (s : StoreState) : Except QErr Entry × StoreState :=
  let safeId := sanitizeUserId userId
  if safeId = "" then (.error .userIdRequired, s)
  else
    let normalized0 := normalizeEntry (.obj (storedOfEntry entry)) userId safeId now
    let normalized := { normalized0 with updatedAt := some now }
    if s.useMemoryStore then
      (.ok normalized, { s with memoryStore := alSet safeId normalized s.memoryStore })
    else
      match writeEntryToS3 cfg env s safeId normalized with
      | (.ok e, s1) => (.ok e, s1)
      | (.error .s3Denied, s1) =>
        (.ok normalized,
          { s1 with useMemoryStore := true,
                    memoryStore := alSet safeId normalized s1.memoryStore })
      | (.error err, s1) => (.error err, s1)

/-- getUsage from src/lib/quota-store.js. -/
def getUsage (cfg : Config) (env : S3Env) (now userId : String) (s : StoreState) :
    Except QErr Entry × StoreState :=
  match loadEntry cfg env now userId s with
  | (.error err, s1) => (.error err, s1)
  | (.ok (entry, _), s1) =>
    (.ok (normalizeEntry (.obj (storedOfEntry entry)) userId (sanitizeUserId userId) now), s1)

/-- The category field read entry[type + "Used"] for a validated category. -/
def Entry.getUsed (e : Entry) (t : String) : ℕ :=
  if t = "listening" then e.listeningUsed
  else if t = "translation" then e.translationUsed
  else e.pronunciationUsed

/-- The category field write entry[type + "Used"] = n for a validated
    category. -/
def Entry.setUsed (e : Entry) (t : String) (n : ℕ) : Entry :=
  if t = "listening" then { e with listeningUsed := n }
  else if t = "translation" then { e with translationUsed := n }
  else { e with pronunciationUsed := n }

/-- The valid quota categories. -/
def validTypes : List String := ["listening", "translation", "pronunciation"]

/-- The coercion of the amount argument of incrementUsage: a finite positive
    number is floored, anything else defaults to 1. -/
def incrementByOf (amount : StoredVal) : ℕ :=
  match amount with
  | .fin q => if 0 < q then (Int.floor q).toNat else 1
  | .nonFinite => 1

/-- incrementUsage from src/lib/quota-store.js. -/
def incrementUsage (cfg : Config) (env : S3Env) (now userId t : String)
    (amount : StoredVal) (s : StoreState) : Except QErr Entry × StoreState :=
  let safeId := sanitizeUserId userId
  if safeId = "" then (.error .userIdRequired, s)
  else if ¬ (t ∈ validTypes) then (.error (.unsupportedType t), s)
  else
    let incrementBy := incrementByOf amount
    match loadEntry cfg env now userId s with
    | (.error err, s1) => (.error err, s1)
    | (.ok (entry, _), s1) =>
      let current := toCount (.fin (entry.getUsed t))
      let updated := { entry.setUsed t (current + incrementBy) with updatedAt := some now }
      match resolveLimitForType cfg t with
      | some limit =>
        if limit < current + incrementBy then
          (.error (.quotaExceeded t limit current), s1)
        else saveEntry cfg env now userId updated s1
      | none => saveEntry cfg env now userId updated s1

/-- resetUsage from src/lib/quota-store.js. -/
def resetUsage (cfg : Config) (env : S3Env) (now userId : String) (s : StoreState) :
    Except QErr Entry × StoreState :=
  let safeId := sanitizeUserId userId
  if safeId = "" then (.error .userIdRequired, s)
  else
    match loadEntry cfg env now userId s with
    | (.error err, s1) => (.error err, s1)
    | (.ok (entry, _), s1) =>
      let entry2 := { entry with
        listeningUsed := 0
        translationUsed := 0
        pronunciationUsed := 0
        resetAt := some now
        updatedAt := some now }
      saveEntry cfg env now userId entry2 s1

/-- deleteUsage from src/lib/quota-store.js: an empty sanitized id returns
    silently; NoSuchKey on delete is swallowed; every other failure
    (AccessDenied included) propagates without flipping the backend. -/
def deleteUsage (cfg : Config) (env : S3Env) (userId : String) (s : StoreState) :
    Except QErr Unit × StoreState :=
  let safeId := sanitizeUserId userId
  if safeId = "" then (.ok (), s)
  else if s.useMemoryStore then
    (.ok (), { s with memoryStore := alRemove safeId s.memoryStore })
  else
    let key := buildKey cfg safeId
    match env.deleteResp key with
    | .ok => (.ok (), { s with s3Objects := alRemove key s.s3Objects })
    | .noSuchKey => (.ok (), s)
    | .accessDenied => (.error .s3Denied, s)
    | .otherError => (.error .s3Other, s)

/-- The key-to-safeId stripping done by listUsage: remove the first
    occurrence of the prefix segment and a trailing .json extension. -/
def stripKey (cfg : Config) (key : String) : String :=
  let p := cfg.keyBase ++ "/"
  let k1 := if p.isPrefixOf key then key.drop p.length else key
  if ".json".data.isSuffixOf k1.data then String.mk (k1.data.take (k1.data.length - 5))
  else k1

/-- The per-key body of the listUsage enumeration loop: each key is read
    back through readEntryFromS3 (so AccessDenied there still flips the
    backend flag), truthy values are normalized and collected, and a failed
    read is logged and skipped. -/
def listKeysLoop (cfg : Config) (env : S3Env) (now : String) :
    List String → StoreState → List Entry × StoreState
  | [], s => ([], s)
  | key :: rest, s =>
    let safeId := stripKey cfg key
    match readEntryFromS3 cfg env s safeId with
    | (.ok (some v), s1) =>
      let uid := match v with
        | .obj e => jsOrString e.id safeId
        | _ => safeId
      let next := listKeysLoop cfg env now rest s1
      (normalizeEntry v uid safeId now :: next.1, next.2)
    | (.ok none, s1) => listKeysLoop cfg env now rest s1
    | (.error _, s1) => listKeysLoop cfg env now rest s1

/-- listUsage from src/lib/quota-store.js: the memory store lists a snapshot
    of its values; the durable backend enumerates the keys under the prefix
    and reads each one back. -/
def listUsage (cfg : Config) (env : S3Env) (now : String) (s : StoreState) :
    Except QErr (List Entry) × StoreState :=
  if s.useMemoryStore then (.ok (s.memoryStore.map Prod.snd), s)
  else
    match env.listResp with
    | .ok =>
      let keys := (s.s3Objects.map Prod.fst).filter
        (fun k => (cfg.keyBase ++ "/").isPrefixOf k)
      let r := listKeysLoop cfg env now keys s
      (.ok r.1, r.2)
    | .accessDenied => (.error .s3Denied, s)
    | _ => (.error .s3Other, s)

/-- Per-category remaining quota, none modelling Infinity: for a finite
    limit the JavaScript code computes max 0 of limit minus the clamped
    counter, which is truncated subtraction on naturals. -/
structure Remaining where
  listening : Option ℕ
  translation : Option ℕ
  pronunciation : Option ℕ
  deriving DecidableEq

/-- computeRemaining from src/lib/quota-store.js. -/
def computeRemaining (cfg : Config) (e : Entry) : Remaining :=
  { listening := (resolveLimitForType cfg "listening").map
      (fun l => l - toCount (.fin e.listeningUsed)),
    translation := (resolveLimitForType cfg "translation").map
      (fun l => l - toCount (.fin e.translationUsed)),
    pronunciation := (resolveLimitForType cfg "pronunciation").map
      (fun l => l - toCount (.fin e.pronunciationUsed)) }

/-- isUsingMemoryStore from src/lib/quota-store.js. -/
def isUsingMemoryStore (s : StoreState) : Bool :=
  s.useMemoryStore

/-! ## Usage endpoint payload (src/api/usage.js, given as src/unnamed/part_001) -/

/-- The usage sub-object of the endpoint payload. -/
structure UsageView where
  listeningUsed : ℕ
  translationUsed : ℕ
  pronunciationUsed : ℕ
  resetAt : Option String
  updatedAt : Option String
  deriving DecidableEq

/-- The successful response body of the usage endpoint. -/
structure UsagePayload where
  ok : Bool
  usage : UsageView
  limits : Limits
  perSectionLimits : Limits
  sectionCount : ℕ
  remaining : Remaining
  storage : String
  deriving DecidableEq

/-- buildUsagePayload from the usage endpoint: the storage field is the
    string memory when the memory store is active and the string s3
    otherwise. -/
def buildUsagePayload (cfg : Config) (e : Entry) (s : StoreState) : UsagePayload :=
  { ok := true,
    usage := { listeningUsed := e.listeningUsed, translationUsed := e.translationUsed,
               pronunciationUsed := e.pronunciationUsed,
               resetAt := jsOrNull e.resetAt, updatedAt := jsOrNull e.updatedAt },
    limits := defaultLimits cfg,
    perSectionLimits := cfg.perSection,
    sectionCount := cfg.sectionCount,
    remaining := computeRemaining cfg e,
    storage := if isUsingMemoryStore s then "memory" else "s3" }

/-- The GET branch of the usage endpoint handler: getUsage followed by
    buildUsagePayload on the resulting state. -/
def handleUsageGet (cfg : Config) (env : S3Env) (now userId : String) (s : StoreState) :
    Except QErr UsagePayload × StoreState :=
  match getUsage cfg env now userId s with
  | (.ok e, s1) => (.ok (buildUsagePayload cfg e s1), s1)
  | (.error err, s1) => (.error err, s1)

/-! ## A single step relation over all repository operations -/

/-- One repository operation, for stating process-wide failover facts. -/
inductive Op where
  | get (userId : String)
  | increment (userId t : String) (amount : StoredVal)
  | reset (userId : String)
  | del (userId : String)
  | list
  deriving DecidableEq

/-- The (untyped) result payload of a repository operation. -/
inductive OpOut where
  | entry (e : Entry)
  | unit
  | entries (l : List Entry)
  deriving DecidableEq

/-- Run one repository operation against a state. -/
def runOp (cfg : Config) (env : S3Env) (now : String) (o : Op) (s : StoreState) :
    Except QErr OpOut × StoreState :=
  match o with
  | .get uid =>
    match getUsage cfg env now uid s with
    | (.ok e, s1) => (.ok (.entry e), s1)
    | (.error err, s1) => (.error err, s1)
  | .increment uid t amount =>
    match incrementUsage cfg env now uid t amount s with
    | (.ok e, s1) => (.ok (.entry e), s1)
    | (.error err, s1) => (.error err, s1)
  | .reset uid =>
    match resetUsage cfg env now uid s with
    | (.ok e, s1) => (.ok (.entry e), s1)
    | (.error err, s1) => (.error err, s1)
  | .del uid =>
    match deleteUsage cfg env uid s with
    | (.ok _, s1) => (.ok .unit, s1)
    | (.error err, s1) => (.error err, s1)
  | .list =>
    match listUsage cfg env now s with
    | (.ok l, s1) => (.ok (.entries l), s1)
    | (.error err, s1) => (.error err, s1)

/-! ## Token service (src/api/_auth.js, given as src/unnamed/part_001) -/

/-- The JWT-style payload built by signToken. -/
structure Payload where
  sub : String
  safeSub : String
  iat : ℕ
  exp : ℕ
  deriving DecidableEq

/-- The external serialization and crypto primitives used by the token
    service: the base64url encoding of the fixed header object, the composed
    base64url-of-JSON payload codec, and the HMAC-SHA256 digest rendered in
    base64url. -/
structure TokenCodec where
  headerPart : String
  encodePayload : Payload → String
  decodePayload : String → Option Payload
  hmac : String → String → String

/-- Errors thrown by the token service. -/
inductive AuthErr where
  | secretMissing
  | tokenMissing
  | invalidToken
  | invalidSignature
  | tokenExpired
  | parseError
  deriving DecidableEq

/-- The payload literal constructed inside signToken. -/
def issuedPayload (userId : String) (nowMs expiresInSeconds : ℕ) : Payload :=
  { sub := userId, safeSub := sanitizeUserId userId, iat := nowMs / 1000,
    exp := nowMs / 1000 + (if expiresInSeconds = 0 then 3600 else expiresInSeconds) }

/-- signToken from src/api/_auth.js: header and payload segments joined by a
    dot, signed by the HMAC over the joined string, with the signature as the
    third segment.  A falsy ttl falls back to 3600 seconds.  A missing
    secret is a configuration error. -/
def signToken (secret : Option String) (codec : TokenCodec) (nowMs : ℕ)
    (userId : String) (expiresInSeconds : ℕ) : Except AuthErr (String × Payload) :=
  match secret with
  | none => .error .secretMissing
  | some sec =>
    let payload := issuedPayload userId nowMs expiresInSeconds
    let data := codec.headerPart ++ "." ++ codec.encodePayload payload
    let signature := codec.hmac sec data
    .ok (data ++ "." ++ signature, payload)

/-- timingSafeEqual from src/api/_auth.js: a length mismatch is a mismatch,
    otherwise a byte comparison, which on strings is equality. -/
def timingSafeEqual (a b : String) : Bool :=
  if a.length = b.length then a == b else false

/-- JavaScript String.prototype.split on a single separator character. -/
def splitOnChar (sep : Char) : List Char → List (List Char)
  | [] => [[]]
  | c :: rest =>
    let r := splitOnChar sep rest
    if c = sep then [] :: r
    else
      match r with
      | [] => [[c]]
      | h :: t2 => (c :: h) :: t2

/-- The token.split call of verifyToken. -/
def splitDots (s : String) : List String :=
  (splitOnChar '.' s.data).map String.mk

/-- verifyToken from src/api/_auth.js: exactly three dot-separated segments,
    a constant-time signature comparison against the recomputed HMAC, a
    payload decode, and an expiry check that rejects only when the expiry
    field is truthy and strictly in the past (in milliseconds). -/
def verifyToken (secret : Option String) (codec : TokenCodec) (nowMs : ℕ)
    (token : String) : Except AuthErr Payload :=
  match secret with
  | none => .error .secretMissing
  | some sec =>
    if token = "" then .error .tokenMissing
    else
      match splitDots token with
      | [headerB64, payloadB64, signatureB64] =>
        let data := headerB64 ++ "." ++ payloadB64
        let expectedSig := codec.hmac sec data
        if timingSafeEqual signatureB64 expectedSig then
          match codec.decodePayload payloadB64 with
          | none => .error .parseError
          | some payload =>
            if payload.exp ≠ 0 ∧ payload.exp * 1000 < nowMs then .error .tokenExpired
            else .ok payload
        else .error .invalidSignature
      | _ => .error .invalidToken

/-! ## Concrete objects for witnesses and counterexamples -/

/-- An S3 environment in which every call succeeds. -/
def healthyEnv : S3Env where
  readResp := fun _ => .ok
  writeResp := fun _ => .ok
  deleteResp := fun _ => .ok
  listResp := .ok

/-- An S3 environment whose reads are permission-denied. -/
def readDeniedEnv : S3Env where
  readResp := fun _ => .accessDenied
  writeResp := fun _ => .ok
  deleteResp := fun _ => .ok
  listResp := .ok

/-- An S3 environment whose deletes are permission-denied. -/
def deleteDeniedEnv : S3Env where
  readResp := fun _ => .ok
  writeResp := fun _ => .ok
  deleteResp := fun _ => .accessDenied
  listResp := .ok

/-- The documented default configuration: per-section limits of 10 and a
    section count of 17, giving an overall cap of 170 per category. -/
def demoCfg : Config where
  keyBase := "quota"
  perSection := { listening := some 10, translation := some 10, pronunciation := some 10 }
  sectionCount := 17

/-- A fresh process state in memory mode (no bucket configured). -/
def emptyMemState : StoreState :=
  { useMemoryStore := true, memoryStore := [], s3Objects := [] }

/-- A fresh process state in durable mode. -/
def emptyS3State : StoreState :=
  { useMemoryStore := false, memoryStore := [], s3Objects := [] }

/-- A concrete payload issued at epoch 0 with a 60 second ttl. -/
def demoPayload : Payload := issuedPayload "alice" 0 60

/-- A concrete token codec standing in for base64url-of-JSON and
    HMAC-SHA256 on the inputs used by the examples: segments never contain a
    dot and the payload decoder inverts the encoder on demoPayload. -/
def demoCodec : TokenCodec where
  headerPart := "H"
  encodePayload := fun _ => "P"
  decodePayload := fun s => if s = "P" then some demoPayload else none
  hmac := fun _ _ => "S"

/-- A concrete record with a non-trivial counter and timestamp. -/
def demoRecord : Entry :=
  { id := "alice", safeId := "alice", listeningUsed := 3, translationUsed := 0,
    pronunciationUsed := 0, resetAt := none, updatedAt := some "2024-01-01" }

/-- A record one short of the default overall listening cap of 170. -/
def nearLimitRecord : Entry :=
  { id := "alice", safeId := "alice", listeningUsed := 169, translationUsed := 0,
    pronunciationUsed := 0, resetAt := none, updatedAt := some "t0" }

/-- A memory-mode state already holding the near-limit record. -/
def nearLimitState : StoreState :=
  { useMemoryStore := true, memoryStore := [("alice", nearLimitRecord)], s3Objects := [] }

/-- The memory-mode state after the lazy creation of a zeroed alice record. -/
def seededAliceMemState : StoreState :=
  { useMemoryStore := true, memoryStore := [("alice", createEntry "alice" "alice" "t0")],
    s3Objects := [] }

/-- A hand-corrupted stored record: a negative counter, a fractional counter
    and a non-finite counter. -/
def corruptRaw : StoredEntry :=
  { id := some "alice", safeId := some "alice", listeningUsed := .fin (-5),
    translationUsed := .fin (mkRat 7 2), pronunciationUsed := .nonFinite,
    resetAt := none, updatedAt := some "t0" }

/-- A durable-mode state whose stored alice object is corrupted. -/
def corruptState : StoreState :=
  { useMemoryStore := false, memoryStore := [],
    s3Objects := [("quota/alice.json", .obj corruptRaw)] }

/-! ## Helper lemmas -/

theorem toCount_fin_nat (n : ℕ) : toCount (.fin (n : ℚ)) = n := by
  simp [toCount, Int.floor_natCast]

theorem incrementByOf_nat (n : ℕ) (h : 1 ≤ n) : incrementByOf (.fin (n : ℚ)) = n := by
  have h0 : (0 : ℚ) < (n : ℚ) := by exact_mod_cast h
  simp [incrementByOf, h0, Int.floor_natCast]

theorem alGet_alSet_self {α : Type} (k : String) (v : α) (l : List (String × α)) :
    alGet k (alSet k v l) = some v := by
  induction l with
  | nil => simp [alSet, alGet]
  | cons hd tl ih =>
    obtain ⟨k2, v2⟩ := hd
    by_cases h : k2 = k
    · simp [alSet, alGet, h]
    · simp [alSet, alGet, h, ih]

theorem jsOrNull_idem (o : Option String) : jsOrNull (jsOrNull o) = jsOrNull o := by
  cases o with
  | none => rfl
  | some s =>
    by_cases h : s = "" <;> simp [jsOrNull, h]

theorem jsOrString_idem (o : Option String) (d : String) (hd : d ≠ "") :
    jsOrString (some (jsOrString o d)) d = jsOrString o d := by
  cases o with
  | none => simp [jsOrString, hd]
  | some s =>
    by_cases h : s = "" <;> simp [jsOrString, h, hd]

theorem limitsGet_defaultLimits (cfg : Config) (t : String) :
    (defaultLimits cfg).get t = computeGlobalLimit (cfg.perSection.get t) cfg.sectionCount := by
  simp only [defaultLimits, Limits.get]
  split_ifs <;> rfl

theorem resolveLimitForType_finite (cfg : Config) (t : String) (p : ℕ)
    (hp : cfg.perSection.get t = some p) (hp1 : 1 ≤ p) (hsc : 1 ≤ cfg.sectionCount) :
    resolveLimitForType cfg t = some (p * cfg.sectionCount) := by
  have hp0 : p ≠ 0 := by omega
  have hps : p * cfg.sectionCount ≠ 0 := Nat.mul_ne_zero hp0 (by omega)
  simp [resolveLimitForType, limitsGet_defaultLimits, hp, computeGlobalLimit, hp0,
    Nat.max_eq_right hsc, hps]

theorem getUsed_setUsed (e : Entry) (t : String) (n : ℕ) :
    (e.setUsed t n).getUsed t = n := by
  simp only [Entry.getUsed, Entry.setUsed]
  split_ifs <;> rfl

theorem allowed_of_mem_replaceDisallowed {c : Char} {l : List Char}
    (h : c ∈ replaceDisallowed l) : isAllowedChar c = true := by
  simp only [replaceDisallowed, List.mem_map] at h
  obtain ⟨a, _, ha⟩ := h
  by_cases hb : isAllowedChar a
  · rw [← ha, if_pos hb]; exact hb
  · rw [← ha, if_neg hb]; decide

theorem replaceDisallowed_allowed_id {l : List Char}
    (h : ∀ c ∈ l, isAllowedChar c = true) : replaceDisallowed l = l := by
  induction l with
  | nil => rfl
  | cons a t ih =>
    have ha := h a (List.mem_cons_self a t)
    simp only [replaceDisallowed, List.map_cons, if_pos ha]
    have := ih (fun c hc => h c (List.mem_cons_of_mem a hc))
    simp only [replaceDisallowed] at this
    rw [this]

theorem allowed_not_ws {c : Char} (h : isAllowedChar c = true) :
    isJsWhitespace c = false := by
  simp only [isAllowedChar, decide_eq_true_eq] at h
  simp only [isJsWhitespace, decide_eq_false_iff_not]
  omega

theorem dropWhile_eq_self_of {α : Type} (p : α → Bool) (l : List α)
    (h : ∀ c ∈ l, p c = false) : l.dropWhile p = l := by
  cases l with
  | nil => rfl
  | cons a t => simp [List.dropWhile, h a (List.mem_cons_self a t)]

theorem trimList_eq_self {l : List Char} (h : ∀ c ∈ l, isJsWhitespace c = false) :
    trimList l = l := by
  unfold trimList
  rw [dropWhile_eq_self_of _ _ h, dropWhile_eq_self_of, List.reverse_reverse]
  intro c hc
  exact h c (List.mem_reverse.mp hc)

theorem splitOnChar_not_mem {sep : Char} {l : List Char} (h : sep ∉ l) :
    splitOnChar sep l = [l] := by
  induction l with
  | nil => rfl
  | cons a t ih =>
    have ha : ¬ (a = sep) := fun heq => h (heq ▸ List.mem_cons_self a t)
    have ht : sep ∉ t := fun hm => h (List.mem_cons_of_mem a hm)
    simp [splitOnChar, ha, ih ht]

theorem splitOnChar_append {sep : Char} {xs ys : List Char} (h : sep ∉ xs) :
    splitOnChar sep (xs ++ sep :: ys) = xs :: splitOnChar sep ys := by
  induction xs with
  | nil => simp [splitOnChar]
  | cons a t ih =>
    have ha : ¬ (a = sep) := fun heq => h (heq ▸ List.mem_cons_self a t)
    have ht : sep ∉ t := fun hm => h (List.mem_cons_of_mem a hm)
    simp only [List.cons_append, splitOnChar, if_neg ha]
    rw [show splitOnChar sep (t.append (sep :: ys)) = t :: splitOnChar sep ys from ih ht]

theorem splitDots_three (a b c : String) (ha : ('.' : Char) ∉ a.data)
    (hb : ('.' : Char) ∉ b.data) (hc : ('.' : Char) ∉ c.data) :
    splitDots (a ++ "." ++ b ++ "." ++ c) = [a, b, c] := by
  have hdata : (a ++ "." ++ b ++ "." ++ c).data
      = a.data ++ ('.' : Char) :: (b.data ++ ('.' : Char) :: c.data) := by
    simp [String.data_append]
  unfold splitDots
  rw [hdata, splitOnChar_append ha, splitOnChar_append hb, splitOnChar_not_mem hc]
  rfl

/-- C5: for every input string, sanitize returns a string drawn only from
    the character class of letters, digits, dot, underscore and hyphen, and
    sanitize is idempotent. -/
theorem sanitizeUserId_charset_and_idempotent (x : String) :
    (∀ c ∈ (sanitizeUserId x).data, isAllowedChar c = true) ∧
    sanitizeUserId (sanitizeUserId x) = sanitizeUserId x := by
  have hall : ∀ c ∈ (sanitizeUserId x).data, isAllowedChar c = true := by
    intro c hc
    simp only [sanitizeUserId, sanitizeSegment] at hc
    exact allowed_of_mem_replaceDisallowed hc
  refine ⟨hall, ?_⟩
  have hsub : ∀ c ∈ replaceDisallowed (trimList x.data), isAllowedChar c = true :=
    fun c hc => allowed_of_mem_replaceDisallowed hc
  simp only [sanitizeUserId, sanitizeSegment]
  rw [trimList_eq_self (fun c hc => allowed_not_ws (hsub c hc)),
    replaceDisallowed_allowed_id hsub]

theorem normalizeEntry_storedOf (r : Entry) (uid sid now : String) :
    normalizeEntry (.obj (storedOfEntry r)) uid sid now =
      { id := jsOrString (some r.id) uid, safeId := sid,
        listeningUsed := r.listeningUsed, translationUsed := r.translationUsed,
        pronunciationUsed := r.pronunciationUsed,
        resetAt := jsOrNull r.resetAt, updatedAt := jsOrNull r.updatedAt } := by
  simp [normalizeEntry, storedOfEntry, toCount_fin_nat]

theorem getUsed_congr {e1 e2 : Entry} (t : String)
    (h1 : e1.listeningUsed = e2.listeningUsed)
    (h2 : e1.translationUsed = e2.translationUsed)
    (h3 : e1.pronunciationUsed = e2.pronunciationUsed) :
    e1.getUsed t = e2.getUsed t := by
  simp only [Entry.getUsed]
  split_ifs <;> assumption

theorem loadEntry_mem_found (cfg : Config) (env : S3Env) (now uid : String)
    (s : StoreState) (e : Entry) (hm : s.useMemoryStore = true)
    (hid : sanitizeUserId uid ≠ "")
    (hget : alGet (sanitizeUserId uid) s.memoryStore = some e) :
    loadEntry cfg env now uid s = (.ok (e, sanitizeUserId uid), s) := by
  simp [loadEntry, hid, hm, hget]

theorem loadEntry_mem_missing (cfg : Config) (env : S3Env) (now uid : String)
    (s : StoreState) (hm : s.useMemoryStore = true)
    (hid : sanitizeUserId uid ≠ "")
    (hget : alGet (sanitizeUserId uid) s.memoryStore = none) :
    loadEntry cfg env now uid s =
      (.ok (createEntry uid (sanitizeUserId uid) now, sanitizeUserId uid),
        { s with memoryStore := alSet (sanitizeUserId uid)
                                  (createEntry uid (sanitizeUserId uid) now) s.memoryStore }) := by
  simp [loadEntry, hid, hm, hget]

theorem loadEntry_s3_obj (cfg : Config) (env : S3Env) (now uid : String)
    (s : StoreState) (raw : StoredEntry) (hm : s.useMemoryStore = false)
    (hid : sanitizeUserId uid ≠ "")
    (hread : env.readResp (buildKey cfg (sanitizeUserId uid)) = .ok)
    (hget : alGet (buildKey cfg (sanitizeUserId uid)) s.s3Objects = some (.obj raw)) :
    loadEntry cfg env now uid s =
      (.ok (normalizeEntry (.obj raw) uid (sanitizeUserId uid) now, sanitizeUserId uid), s) := by
  simp [loadEntry, hid, hm, readEntryFromS3, hread, hget]

theorem loadEntry_s3_missing (cfg : Config) (env : S3Env) (now uid : String)
    (s : StoreState) (hm : s.useMemoryStore = false)
    (hid : sanitizeUserId uid ≠ "")
    (hread : env.readResp (buildKey cfg (sanitizeUserId uid)) = .ok)
    (hget : alGet (buildKey cfg (sanitizeUserId uid)) s.s3Objects = none)
    (hwrite : env.writeResp (buildKey cfg (sanitizeUserId uid)) = .ok) :
    loadEntry cfg env now uid s =
      (.ok (createEntry uid (sanitizeUserId uid) now, sanitizeUserId uid),
        { s with s3Objects := alSet (buildKey cfg (sanitizeUserId uid))
                                (.obj (storedOfEntry (createEntry uid (sanitizeUserId uid) now)))
                                s.s3Objects }) := by
  simp [loadEntry, hid, hm, readEntryFromS3, hread, hget, writeEntryToS3, hwrite]

theorem saveEntry_mem (cfg : Config) (env : S3Env) (now uid : String) (r : Entry)
    (s : StoreState) (hm : s.useMemoryStore = true) (hid : sanitizeUserId uid ≠ "") :
    saveEntry cfg env now uid r s =
      (.ok { normalizeEntry (.obj (storedOfEntry r)) uid (sanitizeUserId uid) now with
               updatedAt := some now },
        { s with memoryStore := alSet (sanitizeUserId uid)
                                  { normalizeEntry (.obj (storedOfEntry r)) uid (sanitizeUserId uid) now with
                                      updatedAt := some now } s.memoryStore }) := by
  simp [saveEntry, hid, hm]

theorem saveEntry_s3_ok (cfg : Config) (env : S3Env) (now uid : String) (r : Entry)
    (s : StoreState) (hm : s.useMemoryStore = false) (hid : sanitizeUserId uid ≠ "")
    (hwrite : env.writeResp (buildKey cfg (sanitizeUserId uid)) = .ok) :
    saveEntry cfg env now uid r s =
      (.ok { normalizeEntry (.obj (storedOfEntry r)) uid (sanitizeUserId uid) now with
               updatedAt := some now },
        { s with s3Objects := alSet (buildKey cfg (sanitizeUserId uid))
                                (.obj (storedOfEntry
                                  { normalizeEntry (.obj (storedOfEntry r)) uid (sanitizeUserId uid) now with
                                      updatedAt := some now })) s.s3Objects }) := by
  simp [saveEntry, hid, hm, writeEntryToS3, hwrite]

theorem loadEntry_s3_truthy (cfg : Config) (env : S3Env) (now uid : String)
    (s : StoreState) (hm : s.useMemoryStore = false)
    (hid : sanitizeUserId uid ≠ "")
    (hread : env.readResp (buildKey cfg (sanitizeUserId uid)) = .ok)
    (hget : alGet (buildKey cfg (sanitizeUserId uid)) s.s3Objects = some .truthyNonObject) :
    loadEntry cfg env now uid s =
      (.ok (createEntry uid (sanitizeUserId uid) now, sanitizeUserId uid), s) := by
  simp [loadEntry, hid, hm, readEntryFromS3, hread, hget, normalizeEntry]

theorem loadEntry_s3_falsy (cfg : Config) (env : S3Env) (now uid : String)
    (s : StoreState) (hm : s.useMemoryStore = false)
    (hid : sanitizeUserId uid ≠ "")
    (hread : env.readResp (buildKey cfg (sanitizeUserId uid)) = .ok)
    (hget : alGet (buildKey cfg (sanitizeUserId uid)) s.s3Objects = some .falsyValue)
    (hwrite : env.writeResp (buildKey cfg (sanitizeUserId uid)) = .ok) :
    loadEntry cfg env now uid s =
      (.ok (createEntry uid (sanitizeUserId uid) now, sanitizeUserId uid),
        { s with s3Objects := alSet (buildKey cfg (sanitizeUserId uid))
                                (.obj (storedOfEntry (createEntry uid (sanitizeUserId uid) now)))
                                s.s3Objects }) := by
  simp [loadEntry, hid, hm, readEntryFromS3, hread, hget, writeEntryToS3, hwrite]

theorem saveEntry_healthy (cfg : Config) (env : S3Env) (now uid : String) (r : Entry)
    (s : StoreState) (henv : env.healthy) (hid : sanitizeUserId uid ≠ "") :
    ∃ s2, saveEntry cfg env now uid r s =
      (.ok { normalizeEntry (.obj (storedOfEntry r)) uid (sanitizeUserId uid) now with
               updatedAt := some now }, s2) := by
  cases hm : s.useMemoryStore with
  | false => exact ⟨_, saveEntry_s3_ok cfg env now uid r s hm hid (henv.2.1 _)⟩
  | true => exact ⟨_, saveEntry_mem cfg env now uid r s hm hid⟩

theorem loadEntry_stable (cfg : Config) (env : S3Env) (now now2 uid : String)
    (s : StoreState) (e : Entry) (sid : String) (s1 : StoreState)
    (henv : env.healthy)
    (h : loadEntry cfg env now uid s = (.ok (e, sid), s1)) :
    ∃ e2, loadEntry cfg env now2 uid s1 = (.ok (e2, sid), s1) ∧
      e2.listeningUsed = e.listeningUsed ∧ e2.translationUsed = e.translationUsed ∧
      e2.pronunciationUsed = e.pronunciationUsed := by
  obtain ⟨hr, hw, _, _⟩ := henv
  by_cases hid : sanitizeUserId uid = ""
  · rw [loadEntry, if_pos hid] at h
    exact absurd (congrArg Prod.fst h) (by simp)
  cases hm : s.useMemoryStore with
  | true =>
    cases hget : alGet (sanitizeUserId uid) s.memoryStore with
    | some e0 =>
      rw [loadEntry_mem_found cfg env now uid s e0 hm hid hget] at h
      simp only [Prod.mk.injEq, Except.ok.injEq] at h
      obtain ⟨⟨he0, hsid⟩, hs⟩ := h
      subst hsid; subst hs; subst he0
      exact ⟨_, loadEntry_mem_found cfg env now2 uid s _ hm hid hget, rfl, rfl, rfl⟩
    | none =>
      rw [loadEntry_mem_missing cfg env now uid s hm hid hget] at h
      simp only [Prod.mk.injEq, Except.ok.injEq] at h
      obtain ⟨⟨he0, hsid⟩, hs⟩ := h
      subst hsid; subst hs; subst he0
      refine ⟨_, loadEntry_mem_found cfg env now2 uid _ _ (by simpa using hm) hid ?_, rfl, rfl, rfl⟩
      simpa using alGet_alSet_self (sanitizeUserId uid)
        (createEntry uid (sanitizeUserId uid) now) s.memoryStore
  | false =>
    cases hget : alGet (buildKey cfg (sanitizeUserId uid)) s.s3Objects with
    | some v =>
      cases v with
      | obj raw =>
        rw [loadEntry_s3_obj cfg env now uid s raw hm hid (hr _) hget] at h
        simp only [Prod.mk.injEq, Except.ok.injEq] at h
        obtain ⟨⟨he0, hsid⟩, hs⟩ := h
        subst hsid; subst hs; subst he0
        exact ⟨normalizeEntry (.obj raw) uid (sanitizeUserId uid) now2,
          loadEntry_s3_obj cfg env now2 uid s raw hm hid (hr _) hget,
          by simp [normalizeEntry], by simp [normalizeEntry], by simp [normalizeEntry]⟩
      | truthyNonObject =>
        rw [loadEntry_s3_truthy cfg env now uid s hm hid (hr _) hget] at h
        simp only [Prod.mk.injEq, Except.ok.injEq] at h
        obtain ⟨⟨he0, hsid⟩, hs⟩ := h
        subst hsid; subst hs; subst he0
        exact ⟨createEntry uid (sanitizeUserId uid) now2,
          loadEntry_s3_truthy cfg env now2 uid s hm hid (hr _) hget,
          by simp [createEntry], by simp [createEntry], by simp [createEntry]⟩
      | falsyValue =>
        rw [loadEntry_s3_falsy cfg env now uid s hm hid (hr _) hget (hw _)] at h
        simp only [Prod.mk.injEq, Except.ok.injEq] at h
        obtain ⟨⟨he0, hsid⟩, hs⟩ := h
        subst hsid; subst hs; subst he0
        refine ⟨normalizeEntry (.obj (storedOfEntry (createEntry uid (sanitizeUserId uid) now)))
          uid (sanitizeUserId uid) now2,
          loadEntry_s3_obj cfg env now2 uid _ _ (by simpa using hm) hid (hr _) ?_, ?_, ?_, ?_⟩
        · simpa using alGet_alSet_self (buildKey cfg (sanitizeUserId uid))
            (S3Value.obj (storedOfEntry (createEntry uid (sanitizeUserId uid) now))) s.s3Objects
        all_goals simp [normalizeEntry_storedOf, createEntry]
    | none =>
      rw [loadEntry_s3_missing cfg env now uid s hm hid (hr _) hget (hw _)] at h
      simp only [Prod.mk.injEq, Except.ok.injEq] at h
      obtain ⟨⟨he0, hsid⟩, hs⟩ := h
      subst hsid; subst hs; subst he0
      refine ⟨normalizeEntry (.obj (storedOfEntry (createEntry uid (sanitizeUserId uid) now)))
        uid (sanitizeUserId uid) now2,
        loadEntry_s3_obj cfg env now2 uid _ _ (by simpa using hm) hid (hr _) ?_, ?_, ?_, ?_⟩
      · simpa using alGet_alSet_self (buildKey cfg (sanitizeUserId uid))
          (S3Value.obj (storedOfEntry (createEntry uid (sanitizeUserId uid) now))) s.s3Objects
      all_goals simp [normalizeEntry_storedOf, createEntry]

theorem getUsed_updatedAtSet (r : Entry) (v : Option String) (t : String) :
    ({ r with updatedAt := v } : Entry).getUsed t = r.getUsed t :=
  getUsed_congr t rfl rfl rfl

theorem getUsed_normalizeStored (r : Entry) (uid sid now t : String) :
    (normalizeEntry (.obj (storedOfEntry r)) uid sid now).getUsed t = r.getUsed t := by
  refine getUsed_congr t ?_ ?_ ?_ <;> simp [normalizeEntry_storedOf]

/-- C1: for a category whose overall cap is finite and equal to the
    per-section cap times the section count, incrementing by n from current
    usage u succeeds with the counter at u + n when u + n stays within the
    cap, and fails with a quota-exceeded error leaving the stored usage at u
    when u + n exceeds the cap. -/
theorem incrementUsage_respects_overall_cap
    (cfg : Config) (env : S3Env) (now uid t : String) (p n u : ℕ)
    (s s1 : StoreState) (e : Entry)
    (henv : env.healthy)
    (ht : t = "listening" ∨ t = "translation" ∨ t = "pronunciation")
    (hp : cfg.perSection.get t = some p) (hp1 : 1 ≤ p) (hsc : 1 ≤ cfg.sectionCount)
    (hn : 1 ≤ n)
    (hload : loadEntry cfg env now uid s = (.ok (e, sanitizeUserId uid), s1))
    (hu : e.getUsed t = u) :
    (u + n ≤ p * cfg.sectionCount →
      ∃ e2 s2, incrementUsage cfg env now uid t (.fin (n : ℚ)) s = (.ok e2, s2) ∧
        e2.getUsed t = u + n) ∧
    (p * cfg.sectionCount < u + n →
      incrementUsage cfg env now uid t (.fin (n : ℚ)) s
        = (.error (.quotaExceeded t (p * cfg.sectionCount) u), s1) ∧
      ∃ e3, getUsage cfg env now uid s1 = (.ok e3, s1) ∧ e3.getUsed t = u) := by
  have hid : sanitizeUserId uid ≠ "" := by
    intro h0
    rw [loadEntry, if_pos h0] at hload
    exact absurd (congrArg Prod.fst hload) (by simp)
  have htv : t ∈ validTypes := by
    rcases ht with h | h | h <;> simp [validTypes, h]
  have hL : resolveLimitForType cfg t = some (p * cfg.sectionCount) :=
    resolveLimitForType_finite cfg t p hp hp1 hsc
  have hkey : incrementUsage cfg env now uid t (.fin (n : ℚ)) s =
      (if p * cfg.sectionCount < u + n then
        (.error (.quotaExceeded t (p * cfg.sectionCount) u), s1)
      else saveEntry cfg env now uid
        { e.setUsed t (u + n) with updatedAt := some now } s1) := by
    simp only [incrementUsage, if_neg hid, htv, not_true_eq_false, if_false,
      incrementByOf_nat n hn, hload, hu, toCount_fin_nat, hL]
  constructor
  · intro hle
    have hnot : ¬ (p * cfg.sectionCount < u + n) := by omega
    rw [hkey, if_neg hnot]
    obtain ⟨s2, hsave⟩ := saveEntry_healthy cfg env now uid
      { e.setUsed t (u + n) with updatedAt := some now } s1 henv hid
    refine ⟨_, s2, hsave, ?_⟩
    rw [getUsed_updatedAtSet, getUsed_normalizeStored, getUsed_updatedAtSet,
      getUsed_setUsed]
  · intro hgt
    refine ⟨by rw [hkey, if_pos hgt], ?_⟩
    obtain ⟨e2, hl2, hc1, hc2, hc3⟩ :=
      loadEntry_stable cfg env now now uid s e _ s1 henv hload
    refine ⟨normalizeEntry (.obj (storedOfEntry e2)) uid (sanitizeUserId uid) now, ?_, ?_⟩
    · simp [getUsage, hl2]
    · rw [getUsed_normalizeStored, getUsed_congr t hc1 hc2 hc3, hu]

/-- Witness for C1: at the default configuration (cap 170), incrementing
    listening by 5 from a fresh record succeeds with the counter at 5. -/
theorem incrementUsage_respects_overall_cap_witness :
    ∃ e2 s2, incrementUsage demoCfg healthyEnv "t0" "alice" "listening"
        (.fin ((5 : ℕ) : ℚ)) emptyMemState = (.ok e2, s2) ∧
      e2.getUsed "listening" = 0 + 5 := by
  have h := incrementUsage_respects_overall_cap demoCfg healthyEnv "t0" "alice" "listening"
    10 5 0 emptyMemState
    { useMemoryStore := true,
      memoryStore := [("alice", createEntry "alice" "alice" "t0")], s3Objects := [] }
    (createEntry "alice" "alice" "t0")
    ⟨fun _ => rfl, fun _ => rfl, fun _ => rfl, rfl⟩
    (Or.inl rfl) (by decide) (by decide) (by decide) (by decide)
    (by decide) (by decide)
  exact h.1 (by decide)

/-- C2 counterexample: a quota-exceeded failure on a fresh user id is not
    mutation free as the claim states: the failing call lazily seeds a
    zeroed record for the user into the active backend. -/
theorem incrementUsage_quotaExceeded_mutates_on_fresh_id :
    incrementUsage demoCfg healthyEnv "t0" "alice" "listening" (.fin ((171 : ℕ) : ℚ))
        emptyMemState
      = (.error (.quotaExceeded "listening" 170 0), seededAliceMemState) ∧
    seededAliceMemState ≠ emptyMemState := by
  exact ⟨by decide, by decide⟩

/-- C2 amended: a quota-exceeded failure carries the category, the finite
    resolved limit and the pre-increment usage; it leaves the post-load
    state unchanged, so the counters still read the pre-increment value and
    no increment is persisted; and when the user record already existed in
    the active backend the state is completely unchanged — the only possible
    mutation is the lazy seeding of a zeroed record by the load when no
    record existed yet. -/
theorem incrementUsage_quotaExceeded_payload_and_no_mutation
    (cfg : Config) (env : S3Env) (now uid t t2 : String) (amount : StoredVal)
    (L u2 : ℕ) (s s1 s2 : StoreState) (e : Entry)
    (henv : env.healthy)
    (hload : loadEntry cfg env now uid s = (.ok (e, sanitizeUserId uid), s1))
    (hfail : incrementUsage cfg env now uid t amount s
      = (.error (.quotaExceeded t2 L u2), s2)) :
    t2 = t ∧ s2 = s1 ∧ u2 = e.getUsed t ∧ resolveLimitForType cfg t = some L ∧
    L < e.getUsed t + incrementByOf amount ∧
    (∃ e3, getUsage cfg env now uid s1 = (.ok e3, s1) ∧ e3.getUsed t = e.getUsed t) ∧
    (s.useMemoryStore = true →
      (∃ e0, alGet (sanitizeUserId uid) s.memoryStore = some e0) → s1 = s) ∧
    (s.useMemoryStore = false →
      (∃ raw, alGet (buildKey cfg (sanitizeUserId uid)) s.s3Objects = some (.obj raw)) →
      s1 = s) := by
  have hid : sanitizeUserId uid ≠ "" := by
    intro h0
    rw [loadEntry, if_pos h0] at hload
    exact absurd (congrArg Prod.fst hload) (by simp)
  by_cases htv : t ∈ validTypes
  swap
  · rw [incrementUsage, if_neg hid, if_pos (by simpa using htv)] at hfail
    exact absurd (congrArg Prod.fst hfail) (by simp)
  have hgu : ∃ e3, getUsage cfg env now uid s1 = (.ok e3, s1) ∧
      e3.getUsed t = e.getUsed t := by
    obtain ⟨e2, hl2, hc1, hc2, hc3⟩ :=
      loadEntry_stable cfg env now now uid s e _ s1 henv hload
    exact ⟨normalizeEntry (.obj (storedOfEntry e2)) uid (sanitizeUserId uid) now,
      by simp [getUsage, hl2],
      by rw [getUsed_normalizeStored]; exact getUsed_congr t hc1 hc2 hc3⟩
  have hexist : (s.useMemoryStore = true →
      (∃ e0, alGet (sanitizeUserId uid) s.memoryStore = some e0) → s1 = s) ∧
      (s.useMemoryStore = false →
        (∃ raw, alGet (buildKey cfg (sanitizeUserId uid)) s.s3Objects = some (.obj raw)) →
        s1 = s) := by
    constructor
    · rintro hm ⟨e0, hget⟩
      rw [loadEntry_mem_found cfg env now uid s e0 hm hid hget] at hload
      exact (congrArg Prod.snd hload).symm
    · rintro hm ⟨raw, hget⟩
      rw [loadEntry_s3_obj cfg env now uid s raw hm hid (henv.1 _) hget] at hload
      exact (congrArg Prod.snd hload).symm
  rw [incrementUsage, if_neg hid, if_neg (by simpa using htv)] at hfail
  simp only [hload] at hfail
  rcases hR : resolveLimitForType cfg t with _ | limit
  · simp only [hR] at hfail
    obtain ⟨s3, hsave⟩ := saveEntry_healthy cfg env now uid
      { e.setUsed t (toCount (.fin (e.getUsed t)) + incrementByOf amount) with
          updatedAt := some now } s1 henv hid
    rw [hsave] at hfail
    exact absurd (congrArg Prod.fst hfail) (by simp)
  · simp only [hR] at hfail
    by_cases hlt : limit < toCount (.fin (e.getUsed t)) + incrementByOf amount
    · rw [if_pos hlt] at hfail
      simp only [toCount_fin_nat] at hlt
      obtain ⟨hfst, hsnd⟩ : (Except.error (QErr.quotaExceeded t limit
            (toCount (.fin (e.getUsed t)))) : Except QErr Entry)
          = .error (.quotaExceeded t2 L u2) ∧ s1 = s2 :=
        ⟨congrArg Prod.fst hfail, congrArg Prod.snd hfail⟩
      simp only [toCount_fin_nat, Except.error.injEq, QErr.quotaExceeded.injEq] at hfst
      obtain ⟨ht2, hL2, hu2⟩ := hfst
      exact ⟨ht2.symm, hsnd.symm, hu2.symm, by rw [hL2], by rw [← hL2]; exact hlt,
        hgu, hexist.1, hexist.2⟩
    · rw [if_neg hlt] at hfail
      obtain ⟨s3, hsave⟩ := saveEntry_healthy cfg env now uid
        { e.setUsed t (toCount (.fin (e.getUsed t)) + incrementByOf amount) with
            updatedAt := some now } s1 henv hid
      rw [hsave] at hfail
      exact absurd (congrArg Prod.fst hfail) (by simp)

/-- Witness for the amended C2: incrementing listening by 5 at usage 169
    under the cap 170 fails and the usage still reads 169 afterwards. -/
theorem incrementUsage_quotaExceeded_payload_witness :
    ∃ e3, getUsage demoCfg healthyEnv "t0" "alice" nearLimitState = (.ok e3, nearLimitState) ∧
      e3.getUsed "listening" = nearLimitRecord.getUsed "listening" := by
  have h := incrementUsage_quotaExceeded_payload_and_no_mutation demoCfg healthyEnv
    "t0" "alice" "listening" "listening" (.fin ((5 : ℕ) : ℚ)) 170 169
    nearLimitState nearLimitState nearLimitState nearLimitRecord
    ⟨fun _ => rfl, fun _ => rfl, fun _ => rfl, rfl⟩
    (by decide) (by decide)
  exact h.2.2.2.2.2.1

/-- C10: on an empty sanitized id, deleteUsage succeeds without touching the
    state while getUsage, incrementUsage and resetUsage all fail with the
    userId-required error and leave the state unchanged. -/
theorem emptyId_delete_succeeds_others_fail
    (cfg : Config) (env : S3Env) (now uid t : String) (amount : StoredVal)
    (s : StoreState) (hid : sanitizeUserId uid = "") :
    deleteUsage cfg env uid s = (.ok (), s) ∧
    getUsage cfg env now uid s = (.error .userIdRequired, s) ∧
    incrementUsage cfg env now uid t amount s = (.error .userIdRequired, s) ∧
    resetUsage cfg env now uid s = (.error .userIdRequired, s) := by
  refine ⟨?_, ?_, ?_, ?_⟩ <;>
    simp [deleteUsage, getUsage, loadEntry, incrementUsage, resetUsage, hid]

/-- Witness for C10 at the empty user id. -/
theorem emptyId_delete_succeeds_others_fail_witness :
    deleteUsage demoCfg healthyEnv "" emptyMemState = (.ok (), emptyMemState) ∧
    getUsage demoCfg healthyEnv "t0" "" emptyMemState
      = (.error .userIdRequired, emptyMemState) ∧
    incrementUsage demoCfg healthyEnv "t0" "" "listening" (.fin 1) emptyMemState
      = (.error .userIdRequired, emptyMemState) ∧
    resetUsage demoCfg healthyEnv "t0" "" emptyMemState
      = (.error .userIdRequired, emptyMemState) :=
  emptyId_delete_succeeds_others_fail demoCfg healthyEnv "t0" "" "listening"
    (.fin 1) emptyMemState (by decide)

/-- C9 counterexample: with the durable backend active, a successful GET
    reports storage s3, which is neither memory nor the value durable that
    the claim allows. -/
theorem usage_storage_field_is_s3_not_durable :
    ((handleUsageGet demoCfg healthyEnv "t0" "alice" emptyS3State).1.toOption.map
        UsagePayload.storage) = some "s3" ∧
    ("s3" : String) ≠ "memory" ∧ ("s3" : String) ≠ "durable" := by
  exact ⟨by decide, by decide, by decide⟩

/-- C9 amended: the storage field of the usage payload is the string memory
    exactly when the memory store is active and the string s3 otherwise, and
    every successful GET reports one of these two values for the state it
    leaves behind. -/
theorem usage_storage_field_memory_or_s3 (cfg : Config) :
    (∀ e s, (buildUsagePayload cfg e s).storage
        = (if isUsingMemoryStore s then "memory" else "s3") ∧
      ((buildUsagePayload cfg e s).storage = "memory" ∨
        (buildUsagePayload cfg e s).storage = "s3") ∧
      ((buildUsagePayload cfg e s).storage = "memory" ↔ isUsingMemoryStore s = true)) ∧
    (∀ env now uid s pl s1, handleUsageGet cfg env now uid s = (.ok pl, s1) →
      pl.storage = (if isUsingMemoryStore s1 then "memory" else "s3")) := by
  have hbase : ∀ e s, (buildUsagePayload cfg e s).storage
      = (if isUsingMemoryStore s then "memory" else "s3") := by
    intro e s
    rfl
  constructor
  · intro e s
    refine ⟨hbase e s, ?_, ?_⟩
    · rw [hbase]
      cases h : isUsingMemoryStore s <;> simp
    · rw [hbase]
      cases h : isUsingMemoryStore s <;> simp
  · intro env now uid s pl s1 h
    rcases hg : getUsage cfg env now uid s with ⟨exc, st⟩
    cases exc with
    | error err =>
      rw [handleUsageGet, hg] at h
      exact absurd (congrArg Prod.fst h) (by simp)
    | ok e =>
      rw [handleUsageGet, hg] at h
      obtain ⟨hpl, hst⟩ : buildUsagePayload cfg e st = pl ∧ st = s1 := by
        constructor
        · have := congrArg Prod.fst h
          simpa using this
        · exact congrArg Prod.snd h
      subst hst
      rw [← hpl]
      exact hbase e st

/-- Witness for the amended C9: a GET in memory mode reports storage
    matching the active backend. -/
theorem usage_storage_field_memory_or_s3_witness :
    (buildUsagePayload demoCfg
        (normalizeEntry (.obj (storedOfEntry (createEntry "alice" "alice" "t0")))
          "alice" "alice" "t0") seededAliceMemState).storage
      = (if isUsingMemoryStore seededAliceMemState then "memory" else "s3") :=
  (usage_storage_field_memory_or_s3 demoCfg).2 healthyEnv "t0" "alice" emptyMemState
    _ _ (by decide)

theorem loadEntry_memMode (cfg : Config) (env env2 : S3Env) (now uid : String)
    (s : StoreState) (hm : s.useMemoryStore = true) :
    loadEntry cfg env now uid s = loadEntry cfg env2 now uid s ∧
    ((loadEntry cfg env now uid s).2).useMemoryStore = true ∧
    ((loadEntry cfg env now uid s).2).s3Objects = s.s3Objects := by
  by_cases hid : sanitizeUserId uid = ""
  · simp [loadEntry, hid, hm]
  · cases hget : alGet (sanitizeUserId uid) s.memoryStore <;>
      simp [loadEntry, hid, hm, hget]

theorem saveEntry_memMode (cfg : Config) (env env2 : S3Env) (now uid : String)
    (s : StoreState) (hm : s.useMemoryStore = true) :
    (∀ r, saveEntry cfg env now uid r s = saveEntry cfg env2 now uid r s) ∧
    (∀ r, ((saveEntry cfg env now uid r s).2).useMemoryStore = true) ∧
    (∀ r, ((saveEntry cfg env now uid r s).2).s3Objects = s.s3Objects) := by
  refine ⟨?_, ?_, ?_⟩ <;> intro r <;> by_cases hid : sanitizeUserId uid = "" <;>
    simp [saveEntry, hid, hm]

theorem getUsage_memMode (cfg : Config) (env env2 : S3Env) (now uid : String)
    (s : StoreState) (hm : s.useMemoryStore = true) :
    getUsage cfg env now uid s = getUsage cfg env2 now uid s ∧
    ((getUsage cfg env now uid s).2).useMemoryStore = true ∧
    ((getUsage cfg env now uid s).2).s3Objects = s.s3Objects := by
  obtain ⟨heq, hflag, hs3⟩ := loadEntry_memMode cfg env env2 now uid s hm
  rcases h1 : loadEntry cfg env now uid s with ⟨exc, s1⟩
  have h2 : loadEntry cfg env2 now uid s = (exc, s1) := by rw [← heq]; exact h1
  simp only [h1] at hflag hs3
  cases exc with
  | error err => refine ⟨?_, ?_, ?_⟩ <;> simp [getUsage, h1, h2, hflag, hs3]
  | ok pr =>
    obtain ⟨e, sid⟩ := pr
    refine ⟨?_, ?_, ?_⟩ <;> simp [getUsage, h1, h2, hflag, hs3]

theorem incrementUsage_memMode (cfg : Config) (env env2 : S3Env) (now uid t : String)
    (amount : StoredVal) (s : StoreState) (hm : s.useMemoryStore = true) :
    incrementUsage cfg env now uid t amount s = incrementUsage cfg env2 now uid t amount s ∧
    ((incrementUsage cfg env now uid t amount s).2).useMemoryStore = true ∧
    ((incrementUsage cfg env now uid t amount s).2).s3Objects = s.s3Objects := by
  by_cases hid : sanitizeUserId uid = ""
  · refine ⟨?_, ?_, ?_⟩ <;> simp [incrementUsage, hid, hm]
  by_cases htv : t ∈ validTypes
  swap
  · refine ⟨?_, ?_, ?_⟩ <;> simp [incrementUsage, hid, htv, hm]
  obtain ⟨heqL, hflagL, hs3L⟩ := loadEntry_memMode cfg env env2 now uid s hm
  rcases h1 : loadEntry cfg env now uid s with ⟨exc, s1⟩
  have h2 : loadEntry cfg env2 now uid s = (exc, s1) := by rw [← heqL]; exact h1
  simp only [h1] at hflagL hs3L
  cases exc with
  | error err =>
    refine ⟨?_, ?_, ?_⟩ <;> simp [incrementUsage, hid, htv, h1, h2, hflagL, hs3L]
  | ok pr =>
    obtain ⟨e, sid⟩ := pr
    obtain ⟨heqS, hflagS, hs3S⟩ := saveEntry_memMode cfg env env2 now uid s1 hflagL
    rcases hR : resolveLimitForType cfg t with _ | limit
    · refine ⟨?_, ?_, ?_⟩ <;>
        simp only [incrementUsage, if_neg hid, htv, not_true_eq_false, if_false,
          h1, h2, hR]
      · rw [heqS]
      · rw [hflagS]
      · rw [hs3S, hs3L]
    · by_cases hlt : limit < toCount (.fin (e.getUsed t)) + incrementByOf amount
      · refine ⟨?_, ?_, ?_⟩ <;>
          simp only [incrementUsage, if_neg hid, htv, not_true_eq_false, if_false,
            h1, h2, hR, if_pos hlt]
        · exact hflagL
        · exact hs3L
      · refine ⟨?_, ?_, ?_⟩ <;>
          simp only [incrementUsage, if_neg hid, htv, not_true_eq_false, if_false,
            h1, h2, hR, if_neg hlt]
        · rw [heqS]
        · rw [hflagS]
        · rw [hs3S, hs3L]

theorem resetUsage_memMode (cfg : Config) (env env2 : S3Env) (now uid : String)
    (s : StoreState) (hm : s.useMemoryStore = true) :
    resetUsage cfg env now uid s = resetUsage cfg env2 now uid s ∧
    ((resetUsage cfg env now uid s).2).useMemoryStore = true ∧
    ((resetUsage cfg env now uid s).2).s3Objects = s.s3Objects := by
  by_cases hid : sanitizeUserId uid = ""
  · refine ⟨?_, ?_, ?_⟩ <;> simp [resetUsage, hid, hm]
  obtain ⟨heqL, hflagL, hs3L⟩ := loadEntry_memMode cfg env env2 now uid s hm
  rcases h1 : loadEntry cfg env now uid s with ⟨exc, s1⟩
  have h2 : loadEntry cfg env2 now uid s = (exc, s1) := by rw [← heqL]; exact h1
  simp only [h1] at hflagL hs3L
  cases exc with
  | error err =>
    refine ⟨?_, ?_, ?_⟩ <;> simp [resetUsage, hid, h1, h2, hflagL, hs3L]
  | ok pr =>
    obtain ⟨e, sid⟩ := pr
    obtain ⟨heqS, hflagS, hs3S⟩ := saveEntry_memMode cfg env env2 now uid s1 hflagL
    refine ⟨?_, ?_, ?_⟩ <;>
      simp only [resetUsage, if_neg hid, h1, h2]
    · rw [heqS]
    · rw [hflagS]
    · rw [hs3S, hs3L]

theorem deleteUsage_memMode (cfg : Config) (env env2 : S3Env) (uid : String)
    (s : StoreState) (hm : s.useMemoryStore = true) :
    deleteUsage cfg env uid s = deleteUsage cfg env2 uid s ∧
    ((deleteUsage cfg env uid s).2).useMemoryStore = true ∧
    ((deleteUsage cfg env uid s).2).s3Objects = s.s3Objects := by
  by_cases hid : sanitizeUserId uid = "" <;> simp [deleteUsage, hid, hm]

theorem listUsage_memMode (cfg : Config) (env env2 : S3Env) (now : String)
    (s : StoreState) (hm : s.useMemoryStore = true) :
    listUsage cfg env now s = listUsage cfg env2 now s ∧
    ((listUsage cfg env now s).2).useMemoryStore = true ∧
    ((listUsage cfg env now s).2).s3Objects = s.s3Objects := by
  simp [listUsage, hm]

/-- C3 counterexample: a delete that fails with the access-denied condition
    propagates the error and does not switch the process to the volatile
    backend, so not every durable-backend operation triggers the failover. -/
theorem deleteUsage_accessDenied_no_failover :
    deleteUsage demoCfg deleteDeniedEnv "alice" emptyS3State
      = (.error .s3Denied, emptyS3State) ∧
    isUsingMemoryStore (deleteUsage demoCfg deleteDeniedEnv "alice" emptyS3State).2
      = false := by
  exact ⟨by decide, by decide⟩

/-- C3 amended: an access-denied failure on the read step of a load or on
    the write step of a save permanently switches the process to the
    volatile backend; the switch is one way — once the memory store is
    active, every repository operation gives the same result under any S3
    environment, keeps the flag set, and never touches the durable
    contents; an access-denied failure during delete propagates as an error
    without switching. -/
theorem failover_one_way_on_load_read_and_save_write (cfg : Config) (now : String) :
    (∀ env uid s, s.useMemoryStore = false → sanitizeUserId uid ≠ "" →
      env.readResp (buildKey cfg (sanitizeUserId uid)) = .accessDenied →
      ((loadEntry cfg env now uid s).2).useMemoryStore = true) ∧
    (∀ env uid r s, s.useMemoryStore = false → sanitizeUserId uid ≠ "" →
      env.writeResp (buildKey cfg (sanitizeUserId uid)) = .accessDenied →
      ((saveEntry cfg env now uid r s).2).useMemoryStore = true) ∧
    (∀ env uid s, s.useMemoryStore = false → sanitizeUserId uid ≠ "" →
      env.deleteResp (buildKey cfg (sanitizeUserId uid)) = .accessDenied →
      deleteUsage cfg env uid s = (.error .s3Denied, s)) ∧
    (∀ env env2 o s, s.useMemoryStore = true →
      runOp cfg env now o s = runOp cfg env2 now o s ∧
      ((runOp cfg env now o s).2).useMemoryStore = true ∧
      ((runOp cfg env now o s).2).s3Objects = s.s3Objects) := by
  refine ⟨?_, ?_, ?_, ?_⟩
  · intro env uid s hm hid hden
    simp only [loadEntry, if_neg hid, hm, Bool.false_eq_true, if_false,
      readEntryFromS3, hden]
    cases hw : env.writeResp (buildKey cfg (sanitizeUserId uid)) <;>
      simp [writeEntryToS3, hw]
  · intro env uid r s hm hid hden
    simp [saveEntry, if_neg hid, hm, writeEntryToS3, hden]
  · intro env uid s hm hid hden
    simp [deleteUsage, if_neg hid, hm, hden]
  · intro env env2 o s hm
    cases o with
    | get uid =>
      obtain ⟨heq, hflag, hs3⟩ := getUsage_memMode cfg env env2 now uid s hm
      rcases h1 : getUsage cfg env now uid s with ⟨exc, s1⟩
      have h2 : getUsage cfg env2 now uid s = (exc, s1) := by rw [← heq]; exact h1
      simp only [h1] at hflag hs3
      cases exc <;> refine ⟨?_, ?_, ?_⟩ <;> simp [runOp, h1, h2, hflag, hs3]
    | increment uid t amount =>
      obtain ⟨heq, hflag, hs3⟩ := incrementUsage_memMode cfg env env2 now uid t amount s hm
      rcases h1 : incrementUsage cfg env now uid t amount s with ⟨exc, s1⟩
      have h2 : incrementUsage cfg env2 now uid t amount s = (exc, s1) := by
        rw [← heq]; exact h1
      simp only [h1] at hflag hs3
      cases exc <;> refine ⟨?_, ?_, ?_⟩ <;> simp [runOp, h1, h2, hflag, hs3]
    | reset uid =>
      obtain ⟨heq, hflag, hs3⟩ := resetUsage_memMode cfg env env2 now uid s hm
      rcases h1 : resetUsage cfg env now uid s with ⟨exc, s1⟩
      have h2 : resetUsage cfg env2 now uid s = (exc, s1) := by rw [← heq]; exact h1
      simp only [h1] at hflag hs3
      cases exc <;> refine ⟨?_, ?_, ?_⟩ <;> simp [runOp, h1, h2, hflag, hs3]
    | del uid =>
      obtain ⟨heq, hflag, hs3⟩ := deleteUsage_memMode cfg env env2 uid s hm
      rcases h1 : deleteUsage cfg env uid s with ⟨exc, s1⟩
      have h2 : deleteUsage cfg env2 uid s = (exc, s1) := by rw [← heq]; exact h1
      simp only [h1] at hflag hs3
      cases exc <;> refine ⟨?_, ?_, ?_⟩ <;> simp [runOp, h1, h2, hflag, hs3]
    | list =>
      obtain ⟨heq, hflag, hs3⟩ := listUsage_memMode cfg env env2 now s hm
      rcases h1 : listUsage cfg env now s with ⟨exc, s1⟩
      have h2 : listUsage cfg env2 now s = (exc, s1) := by rw [← heq]; exact h1
      simp only [h1] at hflag hs3
      cases exc <;> refine ⟨?_, ?_, ?_⟩ <;> simp [runOp, h1, h2, hflag, hs3]

/-- Witness for the amended C3: a permission-denied read flips the process
    to the memory store, and a subsequent operation in memory mode keeps the
    flag set under any environment. -/
theorem failover_one_way_witness :
    ((loadEntry demoCfg readDeniedEnv "t0" "alice" emptyS3State).2).useMemoryStore = true ∧
    ((runOp demoCfg readDeniedEnv "t0" (.get "bob") seededAliceMemState).2).useMemoryStore
      = true := by
  constructor
  · exact (failover_one_way_on_load_read_and_save_write demoCfg "t0").1 readDeniedEnv
      "alice" emptyS3State rfl (by decide) rfl
  · exact ((failover_one_way_on_load_read_and_save_write demoCfg "t0").2.2.2 readDeniedEnv
      healthyEnv (.get "bob") seededAliceMemState rfl).2.1

theorem timingSafeEqual_self (a : String) : timingSafeEqual a a = true := by
  simp [timingSafeEqual]

/-- C4 counterexample: a well-signed token whose payload expires at 60
    seconds is accepted when presented at exactly 60000 milliseconds, while
    the claim requires rejection at the expiry instant. -/
theorem verifyToken_accepts_at_exact_expiry :
    demoPayload.exp = 60 ∧
    verifyToken (some "k") demoCodec (60 * 1000) "H.P.S" = .ok demoPayload := by
  exact ⟨by decide, by decide⟩

/-- C4 amended: for a token with three segments, a matching signature and a
    decodable payload with a non-zero expiry, verify rejects with the
    expired-token error exactly when the current time in milliseconds is
    strictly past the expiry instant; at or before the expiry instant,
    including exactly at it, the token is accepted. -/
theorem verifyToken_expiry_strict (sec : String) (codec : TokenCodec) (nowMs : ℕ)
    (token hb pb sb : String) (payload : Payload)
    (htok : token ≠ "")
    (hsplit : splitDots token = [hb, pb, sb])
    (hsig : timingSafeEqual sb (codec.hmac sec (hb ++ "." ++ pb)) = true)
    (hdec : codec.decodePayload pb = some payload)
    (hexp : payload.exp ≠ 0) :
    (nowMs ≤ payload.exp * 1000 →
      verifyToken (some sec) codec nowMs token = .ok payload) ∧
    (payload.exp * 1000 < nowMs →
      verifyToken (some sec) codec nowMs token = .error .tokenExpired) := by
  constructor
  · intro hle
    have hnot : ¬ (payload.exp ≠ 0 ∧ payload.exp * 1000 < nowMs) := by
      rintro ⟨_, hlt⟩; omega
    simp [verifyToken, htok, hsplit, hsig, hdec, hnot]
  · intro hgt
    simp [verifyToken, htok, hsplit, hsig, hdec, hexp, hgt]

/-- Witness for the amended C4: the concrete token is accepted exactly at
    its expiry instant. -/
theorem verifyToken_expiry_strict_witness :
    verifyToken (some "k") demoCodec (60 * 1000) "H.P.S" = .ok demoPayload :=
  (verifyToken_expiry_strict "k" demoCodec (60 * 1000) "H.P.S" "H" "P" "S" demoPayload
    (by decide) (by decide) (by decide) (by decide) (by decide)).1 (by decide)

/-- C6: verifying a token immediately after issuing it succeeds and yields
    a payload whose sub field is the original raw user id, for any signing
    secret and any codec whose primitives behave like base64url-of-JSON and
    HMAC-SHA256 on the issued payload: segments are dot-free and decode
    inverts encode. -/
theorem token_roundtrip_sub (sec uid : String) (codec : TokenCodec) (nowMs ttl : ℕ)
    (httl : 1 ≤ ttl)
    (hdec : codec.decodePayload (codec.encodePayload (issuedPayload uid nowMs ttl))
      = some (issuedPayload uid nowMs ttl))
    (hh : ('.' : Char) ∉ codec.headerPart.data)
    (hp : ('.' : Char) ∉ (codec.encodePayload (issuedPayload uid nowMs ttl)).data)
    (hs : ('.' : Char) ∉ (codec.hmac sec (codec.headerPart ++ "." ++
      codec.encodePayload (issuedPayload uid nowMs ttl))).data) :
    ∃ tok, signToken (some sec) codec nowMs uid ttl
        = .ok (tok, issuedPayload uid nowMs ttl) ∧
      verifyToken (some sec) codec nowMs tok = .ok (issuedPayload uid nowMs ttl) ∧
      (issuedPayload uid nowMs ttl).sub = uid := by
  refine ⟨codec.headerPart ++ "." ++ codec.encodePayload (issuedPayload uid nowMs ttl)
    ++ "." ++ codec.hmac sec (codec.headerPart ++ "." ++
      codec.encodePayload (issuedPayload uid nowMs ttl)), ?_, ?_, rfl⟩
  · simp [signToken]
  · have htok : codec.headerPart ++ "." ++ codec.encodePayload (issuedPayload uid nowMs ttl)
        ++ "." ++ codec.hmac sec (codec.headerPart ++ "." ++
          codec.encodePayload (issuedPayload uid nowMs ttl)) ≠ "" := by
      intro h0
      have hd := congrArg String.data h0
      simp [String.data_append] at hd
    have hsplit := splitDots_three codec.headerPart
      (codec.encodePayload (issuedPayload uid nowMs ttl))
      (codec.hmac sec (codec.headerPart ++ "." ++
        codec.encodePayload (issuedPayload uid nowMs ttl))) hh hp hs
    have httl0 : ttl ≠ 0 := by omega
    have hexpv : (issuedPayload uid nowMs ttl).exp = nowMs / 1000 + ttl := by
      simp [issuedPayload, httl0]
    have hnot : ¬ ((issuedPayload uid nowMs ttl).exp ≠ 0 ∧
        (issuedPayload uid nowMs ttl).exp * 1000 < nowMs) := by
      rintro ⟨_, hlt⟩
      rw [hexpv] at hlt
      omega
    simp [verifyToken, htok, hsplit, timingSafeEqual_self, hdec, hnot]

/-- Witness for C6: the round trip at the concrete codec, secret k, epoch 0
    and a 60 second ttl. -/
theorem token_roundtrip_sub_witness :
    ∃ tok, signToken (some "k") demoCodec 0 "alice" 60
        = .ok (tok, issuedPayload "alice" 0 60) ∧
      verifyToken (some "k") demoCodec 0 tok = .ok (issuedPayload "alice" 0 60) ∧
      (issuedPayload "alice" 0 60).sub = "alice" :=
  token_roundtrip_sub "k" "alice" demoCodec 0 60 (by decide) (by decide) (by decide)
    (by decide) (by decide)

/-- C7: records read back from the backends always carry non-negative
    integer counters: the durable read path passes every stored object
    through normalizeEntry, whose counters are toCount of the raw stored
    values, toCount clamps negative or non-finite values to zero and floors
    non-negative ones to an integer, and the volatile read path returns the
    stored record, whose counters are naturals by construction. -/
theorem read_counters_normalized (cfg : Config) (env : S3Env) (now uid : String)
    (s : StoreState) :
    (∀ raw sid, (normalizeEntry (.obj raw) uid sid now).listeningUsed
        = toCount raw.listeningUsed ∧
      (normalizeEntry (.obj raw) uid sid now).translationUsed
        = toCount raw.translationUsed ∧
      (normalizeEntry (.obj raw) uid sid now).pronunciationUsed
        = toCount raw.pronunciationUsed) ∧
    (∀ q : ℚ, (q < 0 → toCount (.fin q) = 0) ∧
      (0 ≤ q → (toCount (.fin q) : ℤ) = Int.floor q) ∧ toCount .nonFinite = 0) ∧
    (s.useMemoryStore = false → sanitizeUserId uid ≠ "" →
      env.readResp (buildKey cfg (sanitizeUserId uid)) = .ok →
      ∀ raw, alGet (buildKey cfg (sanitizeUserId uid)) s.s3Objects = some (.obj raw) →
        loadEntry cfg env now uid s
          = (.ok (normalizeEntry (.obj raw) uid (sanitizeUserId uid) now,
              sanitizeUserId uid), s)) ∧
    (s.useMemoryStore = true → sanitizeUserId uid ≠ "" →
      ∀ e, alGet (sanitizeUserId uid) s.memoryStore = some e →
        loadEntry cfg env now uid s = (.ok (e, sanitizeUserId uid), s)) := by
  refine ⟨?_, ?_, ?_, ?_⟩
  · intro raw sid
    exact ⟨rfl, rfl, rfl⟩
  · intro q
    refine ⟨fun hneg => by simp [toCount, hneg], fun hpos => ?_, rfl⟩
    simp [toCount, not_lt.mpr hpos]
    exact Int.floor_nonneg.mpr hpos
  · intro hm hid hread raw hget
    exact loadEntry_s3_obj cfg env now uid s raw hm hid hread hget
  · intro hm hid e hget
    exact loadEntry_mem_found cfg env now uid s e hm hid hget

/-- Witness for C7: a stored record with counters -5, 3.5 and NaN loads as
    the normalized record with counters 0, 3 and 0. -/
theorem read_counters_normalized_witness :
    loadEntry demoCfg healthyEnv "t0" "alice" corruptState
      = (.ok (normalizeEntry (.obj corruptRaw) "alice" "alice" "t0", "alice"),
          corruptState) ∧
    (normalizeEntry (.obj corruptRaw) "alice" "alice" "t0").listeningUsed = 0 ∧
    (normalizeEntry (.obj corruptRaw) "alice" "alice" "t0").translationUsed = 3 ∧
    (normalizeEntry (.obj corruptRaw) "alice" "alice" "t0").pronunciationUsed = 0 := by
  refine ⟨(read_counters_normalized demoCfg healthyEnv "t0" "alice" corruptState).2.2.1
    rfl (by decide) rfl corruptRaw (by decide), by decide, by decide, by decide⟩

theorem jsOrNull_some_ne (s : String) (h : s ≠ "") : jsOrNull (some s) = some s := by
  simp [jsOrNull, h]

/-- C8 counterexample: saveEntry stamps updatedAt with the save time, so
    load after save differs from the plain normalization of the saved
    record whenever the record carried a different updatedAt. -/
theorem saveLoad_not_exactly_normalize :
    (loadEntry demoCfg healthyEnv "2024-02-02" "alice"
        (saveEntry demoCfg healthyEnv "2024-02-02" "alice" demoRecord emptyMemState).2).1
      = .ok ({ demoRecord with updatedAt := some "2024-02-02" }, "alice") ∧
    ({ demoRecord with updatedAt := some "2024-02-02" } : Entry)
      ≠ normalizeEntry (.obj (storedOfEntry demoRecord)) "alice" "alice" "2024-02-02" := by
  exact ⟨by decide, by decide⟩

/-- C8 amended: saving a record and loading it back through either backend
    returns exactly the normalization of the record with updatedAt replaced
    by the save timestamp; id, safeId, the three counters and resetAt
    survive the round trip up to normalization. -/
theorem saveLoad_roundtrip_normalize_stamped (cfg : Config) (env : S3Env)
    (now now2 uid : String) (r : Entry) (s : StoreState)
    (henv : env.healthy) (hid : sanitizeUserId uid ≠ "") (hnow : now ≠ "") :
    ∃ s1, saveEntry cfg env now uid r s
        = (.ok { normalizeEntry (.obj (storedOfEntry r)) uid (sanitizeUserId uid) now with
                   updatedAt := some now }, s1) ∧
      loadEntry cfg env now2 uid s1
        = (.ok ({ normalizeEntry (.obj (storedOfEntry r)) uid (sanitizeUserId uid) now with
                    updatedAt := some now }, sanitizeUserId uid), s1) := by
  have huid : uid ≠ "" := by
    intro h0
    exact hid (by rw [h0]; rfl)
  cases hm : s.useMemoryStore with
  | true =>
    refine ⟨_, saveEntry_mem cfg env now uid r s hm hid, ?_⟩
    refine loadEntry_mem_found cfg env now2 uid _ _ (by simpa using hm) hid ?_
    simpa using alGet_alSet_self (sanitizeUserId uid) _ s.memoryStore
  | false =>
    refine ⟨_, saveEntry_s3_ok cfg env now uid r s hm hid (henv.2.1 _), ?_⟩
    have hm2 : ({ s with s3Objects := alSet (buildKey cfg (sanitizeUserId uid)) (S3Value.obj (storedOfEntry { normalizeEntry (.obj (storedOfEntry r)) uid (sanitizeUserId uid) now with updatedAt := some now })) s.s3Objects } : StoreState).useMemoryStore = false := by
      simpa using hm
    have hget2 : alGet (buildKey cfg (sanitizeUserId uid)) ({ s with s3Objects := alSet (buildKey cfg (sanitizeUserId uid)) (S3Value.obj (storedOfEntry { normalizeEntry (.obj (storedOfEntry r)) uid (sanitizeUserId uid) now with updatedAt := some now })) s.s3Objects } : StoreState).s3Objects = some (S3Value.obj (storedOfEntry { normalizeEntry (.obj (storedOfEntry r)) uid (sanitizeUserId uid) now with updatedAt := some now })) := by
      simpa using alGet_alSet_self (buildKey cfg (sanitizeUserId uid)) (S3Value.obj (storedOfEntry { normalizeEntry (.obj (storedOfEntry r)) uid (sanitizeUserId uid) now with updatedAt := some now })) s.s3Objects
    rw [loadEntry_s3_obj cfg env now2 uid _ (storedOfEntry { normalizeEntry (.obj (storedOfEntry r)) uid (sanitizeUserId uid) now with updatedAt := some now }) hm2 hid (henv.1 _) hget2]
    have hre : normalizeEntry (.obj (storedOfEntry { normalizeEntry (.obj (storedOfEntry r)) uid (sanitizeUserId uid) now with updatedAt := some now })) uid (sanitizeUserId uid) now2 = { normalizeEntry (.obj (storedOfEntry r)) uid (sanitizeUserId uid) now with updatedAt := some now } := by
      rw [normalizeEntry_storedOf, normalizeEntry_storedOf]
      simp [Entry.mk.injEq, jsOrString_idem (some r.id) uid huid, jsOrNull_idem,
        jsOrNull_some_ne now hnow]
    rw [hre]

/-- Witness for the amended C8: the concrete round trip through the memory
    backend at save time t1 and load time t2. -/
theorem saveLoad_roundtrip_normalize_stamped_witness :
    ∃ s1, saveEntry demoCfg healthyEnv "t1" "alice" demoRecord emptyMemState
        = (.ok { normalizeEntry (.obj (storedOfEntry demoRecord)) "alice" "alice" "t1" with
                   updatedAt := some "t1" }, s1) ∧
      loadEntry demoCfg healthyEnv "t2" "alice" s1
        = (.ok ({ normalizeEntry (.obj (storedOfEntry demoRecord)) "alice" "alice" "t1" with
                    updatedAt := some "t1" }, "alice"), s1) :=
  saveLoad_roundtrip_normalize_stamped demoCfg healthyEnv "t1" "t2" "alice" demoRecord
    emptyMemState ⟨fun _ => rfl, fun _ => rfl, fun _ => rfl, rfl⟩ (by decide) (by decide)

end Beta
